import Mathlib

/-!
Verification development for the GitApp command browser (`app.py`).

The program is a Streamlit application built around a single class
`GitCommandsApp`.  Its data lives in a pandas DataFrame `self.df` whose rows
have the four required CSV columns `comando`, `descrição`, `ordem_importância`
and `como_pode_ser_usado`.  Here a row is embedded as a `CommandEntry`
(field names transliterated to ASCII), a DataFrame as a `List CommandEntry`
in row order, and each method of the class as a Lean function (or, where
pandas leaves the behaviour underspecified, a relation) over those lists.

Pandas/Python string primitives are embedded over `List Char`:
`Series.str.lower` / `str.lower()` as character-wise `Char.toLower`
(ASCII case folding, which models Python's folding on the latin letters the
matching logic cares about), `str.strip()` as dropping leading and trailing
whitespace, and `str.split(', ')` as greedy left-to-right splitting on the
two-character separator.

`Series.str.contains` is called with its default `regex=True`, so the search
term is compiled by `re.compile` and used with `re.search`.  It is embedded
as the relation `str_contains_rel` over the term: a term free of the
fourteen regex metacharacters is matched literally (a regular expression
without metacharacters matches exactly its own literal occurrences); a term
the scanner `regexInvalid` flags — an unmatched parenthesis outside a
character class, an unterminated character class, or a trailing backslash,
all of which `re.compile` always rejects with `re.error` — raises; any other
term is left unconstrained, so no theorem can rely on behaviour the model
does not pin down.  The total function `filter_commands` is the filter on
the literal domain; `filter_commands_rel` embeds the method in full,
including the raise, and coincides with the total function on empty or
metacharacter-free terms (`filter_commands_rel_ok`).
-/

/-- Embeds one row of the CSV-backed DataFrame.  Field names transliterate
the required columns `comando`, `descrição`, `ordem_importância`,
`como_pode_ser_usado`; the rank column is parsed by pandas as an integer. -/
structure CommandEntry where
  comando : String
  descricao : String
  ordem_importancia : Int
  como_pode_ser_usado : String
deriving DecidableEq, Repr

/-- Embeds the dict returned by `render_sidebar_filters`. -/
structure Filters where
  min_importance : Int
  max_importance : Int
  search_term : String
deriving DecidableEq, Repr

/-- Embeds the application object: the only data attribute is `self.df`. -/
structure GitCommandsApp where
  df : List CommandEntry
deriving DecidableEq, Repr

/-- Is `pat` a prefix of the second list?  Helper for substring occurrence. -/
def isPrefixL (pat : List Char) : List Char → Bool :=
  fun l =>
    match pat, l with
    | [], _ => true
    | _ :: _, [] => false
    | a :: as, b :: bs => a = b && isPrefixL as bs

/-- Does `pat` occur as a contiguous sublist of `l`? -/
def isInfixL (pat : List Char) : List Char → Bool
  | [] => pat.isEmpty
  | c :: rest => isPrefixL pat (c :: rest) || isInfixL pat rest

/-- Embeds the literal case of pandas `hay.str.contains(pat)`: substring
occurrence, which is what regex search performs whenever `pat` is free of
regex metacharacters.  The full behaviour of `str.contains` with its
`regex=True` default, including the `re.error` raise on an invalid pattern,
is embedded by `str_contains_rel` below. -/
def containsStr (hay pat : String) : Bool :=
  isInfixL pat.data hay.data

/-- Embeds Python's `str.lower()` (character-wise ASCII case folding). -/
def pyLower (s : String) : String :=
  ⟨s.data.map Char.toLower⟩

/-- Strips leading and trailing whitespace from a character list. -/
def stripL (l : List Char) : List Char :=
  ((l.dropWhile Char.isWhitespace).reverse.dropWhile Char.isWhitespace).reverse

/-- Embeds Python's `str.strip()`. -/
def pyStrip (s : String) : String :=
  ⟨stripL s.data⟩

/-- Embeds `GitCommandsApp.filter_commands` (app.py lines 103-117) on the
terms where `str.contains` is literal: first the importance-range mask, then
— only when the already-normalised search term is truthy, i.e. non-empty —
the search mask over the lowercased `comando` and `descrição` columns.  The
`.copy()` has no observable effect on the result.  The faithful embedding of
the method over arbitrary terms, including the `re.error` raise of the
`regex=True` default, is `filter_commands_rel` below, which agrees with this
function on every empty or metacharacter-free term. -/
def filter_commands (df : List CommandEntry) (min_importance max_importance : Int)
    (search_term : String) : List CommandEntry :=
  let filtered_df := df.filter fun row =>
    decide (min_importance ≤ row.ordem_importancia) &&
    decide (row.ordem_importancia ≤ max_importance)
  if search_term = "" then
    filtered_df
  else
    filtered_df.filter fun row =>
      containsStr (pyLower row.comando) search_term ||
      containsStr (pyLower row.descricao) search_term

example : filter_commands
    [⟨"git commit", "grava alterações", 2, "git commit -m"⟩,
     ⟨"git rebase", "reescreve histórico", 50, "git rebase main"⟩]
    1 10 "" = [⟨"git commit", "grava alterações", 2, "git commit -m"⟩] := by decide

example : filter_commands
    [⟨"git commit", "grava alterações", 2, "git commit -m"⟩,
     ⟨"git rebase", "reescreve histórico", 50, "git rebase main"⟩]
    1 157 "rebase" = [⟨"git rebase", "reescreve histórico", 50, "git rebase main"⟩] := by
  decide

/-- The fourteen characters with special meaning in Python regular
expressions; every other character matches only itself. -/
def isRegexMeta (c : Char) : Bool :=
  c = '.' || c = '^' || c = '$' || c = '*' || c = '+' || c = '?' ||
  c = '\x7b' || c = '\x7d' || c = '[' || c = ']' || c = '\\' || c = '|' ||
  c = '(' || c = ')'

/-- Scan for pattern errors `re.compile` always rejects.  Arguments: the
remaining characters, the number of open groups, whether the scan is inside
a character class, and the class state (2 right after the opening bracket,
1 right after a leading caret, 0 otherwise — in states 2 and 1 a closing
bracket is literal, per Python's first-position rule).  A backslash escapes
the next character both outside and inside a class; a trailing backslash, an
unmatched parenthesis outside a class, a class left open, or a group left
open at the end of the pattern is an error. -/
def regexInvalidScan : List Char → Nat → Bool → Nat → Bool
  | [], depth, inClass, _ => decide (depth ≠ 0) || inClass
  | '\\' :: rest, depth, inClass, _ =>
    match rest with
    | [] => true
    | _ :: rest2 => regexInvalidScan rest2 depth inClass 0
  | c :: rest, depth, true, classState =>
    if c = ']' ∧ classState = 0 then regexInvalidScan rest depth false 0
    else if c = '^' ∧ classState = 2 then regexInvalidScan rest depth true 1
    else regexInvalidScan rest depth true 0
  | c :: rest, depth, false, _ =>
    if c = '[' then regexInvalidScan rest depth true 2
    else if c = '(' then regexInvalidScan rest (depth + 1) false 0
    else if c = ')' then
      match depth with
      | 0 => true
      | d + 1 => regexInvalidScan rest d false 0
    else regexInvalidScan rest depth false 0

/-- Conservative detector of patterns on which `re.compile` raises
`re.error`: it flags only unbalanced groups, unterminated character classes
and trailing backslashes, each of which Python unconditionally rejects
(`missing )`, `unbalanced parenthesis`, `unterminated character set`,
`bad escape (end of pattern)`).  Patterns it does not flag may still be
invalid for other reasons; those fall into the unconstrained case of
`str_contains_rel`. -/
def regexInvalid (pat : String) : Bool :=
  regexInvalidScan pat.data 0 false 0

example : regexInvalid "(" = true := by decide

example : regexInvalid ")" = true := by decide

example : regexInvalid "commit" = false := by decide

example : regexInvalid "[)]" = false := by decide

example : regexInvalid "\\(" = false := by decide

/-- Embeds the elementwise behaviour of pandas
`Series.str.contains(pat, na=False)` with its default `regex=True` as a
relation from the pattern to either the per-element matcher or the
`re.error` raise of `re.compile`: a metacharacter-free pattern matches
literally, a pattern `regexInvalid` flags raises, and any other pattern
yields some matcher the model does not commit to (it may in truth also
raise; no theorem may depend on this case). -/
def str_contains_rel (pat : String)
    (outcome : Except Unit (String → Bool)) : Prop :=
  if pat.data.all fun c => !(isRegexMeta c) then
    outcome = Except.ok fun hay => isInfixL pat.data hay.data
  else if regexInvalid pat then
    outcome = Except.error ()
  else
    ∃ f, outcome = Except.ok f

/-- Embeds `GitCommandsApp.filter_commands` (app.py lines 103-117) in full:
the importance-range mask always succeeds; a truthy (non-empty) search term
is handed to `str.contains`, whose compilation happens before the rows are
consulted, so an invalid term makes the whole call raise — the embedded
result is then the error — while a compiled matcher is applied to the
lowercased `comando` and `descrição` columns. -/
def filter_commands_rel (df : List CommandEntry)
    (min_importance max_importance : Int) (search_term : String)
    (result : Except Unit (List CommandEntry)) : Prop :=
  let filtered_df := df.filter fun row =>
    decide (min_importance ≤ row.ordem_importancia) &&
    decide (row.ordem_importancia ≤ max_importance)
  if search_term = "" then
    result = Except.ok filtered_df
  else
    ∃ outcome, str_contains_rel search_term outcome ∧
      match outcome with
      | Except.error _ => result = Except.error ()
      | Except.ok f =>
        result = Except.ok (filtered_df.filter fun row =>
          f (pyLower row.comando) || f (pyLower row.descricao))

/-- Embeds the `importance_ranges` dict of `render_sidebar_filters`
(app.py lines 74-81), in insertion order. -/
def importance_ranges : List (String × Int × Int) :=
  [("🔥 Essenciais (1-10)", 1, 10),
   ("🚀 Intermediários (11-30)", 11, 30),
   ("⚡ Avançados (31-60)", 31, 60),
   ("🔧 Técnicos (61-100)", 61, 100),
   ("🛠️ Específicos (101-157)", 101, 157),
   ("📋 Todos os comandos", 1, 157)]

/-- Embeds `render_sidebar_filters` (app.py lines 67-101).  The rendering
surface supplies the selected range label and the raw text of the search box;
the method looks the label up in `importance_ranges` and normalises the raw
search text with `.lower().strip()` before putting it in the filters dict.
`none` corresponds to a label the selectbox can never return. -/
def render_sidebar_filters (selected_range : String) (raw_search : String) :
    Option Filters :=
  match importance_ranges.find? (fun p => p.1 == selected_range) with
  | none => none
  | some p => some ⟨p.2.1, p.2.2, pyStrip (pyLower raw_search)⟩

/-- Embeds `render_command_selector` (app.py lines 119-143): an empty
filtered frame renders a warning and returns `None`; otherwise the selectbox
yields an index into the filtered frame and the method returns that row's
fields as a dict (`filtered_df.iloc[selected_index].to_dict()`), here the
row itself. -/
def render_command_selector (filtered_df : List CommandEntry)
    (selected_index : Nat) : Option CommandEntry :=
  if filtered_df.isEmpty then none
  else filtered_df[selected_index]?

/-- Embeds the `essential` count of `render_statistics` (app.py line 212):
rows of the full frame with rank at most 10. -/
def essential_count (df : List CommandEntry) : Nat :=
  (df.filter fun e => decide (e.ordem_importancia ≤ 10)).length

/-- Embeds the `intermediate` count of `render_statistics` (app.py line 213):
rows with rank strictly above 10 and at most 30. -/
def intermediate_count (df : List CommandEntry) : Nat :=
  (df.filter fun e =>
    decide (10 < e.ordem_importancia) && decide (e.ordem_importancia ≤ 30)).length

/-- Embeds the `advanced` count of `render_statistics` (app.py line 214):
rows with rank strictly above 30. -/
def advanced_count (df : List CommandEntry) : Nat :=
  (df.filter fun e => decide (30 < e.ordem_importancia)).length

/-- Does the two-character separator of `str.split(', ')` occur in `l`? -/
def hasSep : List Char → Bool
  | [] => false
  | [_] => false
  | a :: b :: rest => (a = ',' && b = ' ') || hasSep (b :: rest)

/-- Embeds Python's `str.split(', ')`: greedy left-to-right split on every
non-overlapping occurrence of the separator, keeping empty fragments. -/
def splitCommaSpace : List Char → List (List Char)
  | [] => [[]]
  | [c] => [[c]]
  | c :: d :: rest =>
    if c = ',' ∧ d = ' ' then
      [] :: splitCommaSpace rest
    else
      match splitCommaSpace (d :: rest) with
      | [] => [[c]]
      | frag :: frags => (c :: frag) :: frags

example : splitCommaSpace "git add ., git add -A".data =
    ["git add .".data, "git add -A".data] := by decide

example : splitCommaSpace "a,, b".data = ["a,".data, "b".data] := by decide

/-- Embeds the usage-examples part of `render_command_details`
(app.py lines 175-182): split the stored `como_pode_ser_usado` string on
`', '`, strip each fragment, and render (in order) exactly the fragments that
are non-empty after stripping. -/
def render_usage_items (s : String) : List String :=
  (((splitCommaSpace s.data).map stripL).filter fun f => !f.isEmpty).map
    fun f => String.mk f

example : render_usage_items "git add ., , git add -A" =
    ["git add .", "git add -A"] := by decide

/-- Joins fragments with the separator `', '`; the left inverse of
`splitCommaSpace` used to state what splitting does. -/
def joinCommaSpace : List (List Char) → List Char
  | [] => []
  | [f] => f
  | f :: g :: rest => f ++ ',' :: ' ' :: joinCommaSpace (g :: rest)

/-- The possible load failures of `load_data` / `validate_data`
(app.py lines 28-52): the file is missing, pandas cannot parse it, or a
required column is absent. -/
inductive LoadError where
  | fileNotFound
  | parseError
  | schemaInvalid
deriving DecidableEq, Repr

/-- Embeds a successfully read CSV file before validation: its column names
and its rows.  Rows are already typed because the claims under verification
only depend on loading outcomes, not on cell-level coercion. -/
structure RawCsv where
  columns : List String
  rows : List CommandEntry
deriving DecidableEq, Repr

/-- Embeds the required-columns check of `validate_data` (app.py lines
45-47): every one of the four required column names must be present. -/
def required_columns : List String :=
  ["comando", "descrição", "ordem_importância", "como_pode_ser_usado"]

/-- Does the raw CSV contain all required columns? -/
def hasRequiredColumns (raw : RawCsv) : Bool :=
  required_columns.all fun c => raw.columns.contains c

/-- Embeds `self.df.sort_values('ordem_importância')` (app.py line 52) as a
relation: pandas' default sort kind is `quicksort`, which pandas documents as
not stable, so the only guarantee is that the output is a permutation of the
input ordered non-decreasingly by `ordem_importância`; the relative order of
rows with equal rank is left open. -/
def sortValuesRel (input output : List CommandEntry) : Prop :=
  output.Perm input ∧
  output.Pairwise fun a b => a.ordem_importancia ≤ b.ordem_importancia

/-- Embeds `load_data` together with `validate_data` (app.py lines 28-52) as
a relation from the state of the input file to the loading outcome.  The file
state is `none` when `comandos.csv` does not exist, `some (Except.error u)`
when `pd.read_csv` raises, and `some (Except.ok raw)` when it parses.  Every
failure branch calls `st.error` and `st.stop()`, so the script halts with a
message and no DataFrame; the success branch stores the sorted rows. -/
def loadRel (file : Option (Except Unit RawCsv))
    (result : Except LoadError (List CommandEntry)) : Prop :=
  match file with
  | none => result = Except.error LoadError.fileNotFound
  | some (Except.error _) => result = Except.error LoadError.parseError
  | some (Except.ok raw) =>
    if hasRequiredColumns raw then
      ∃ out, result = Except.ok out ∧ sortValuesRel raw.rows out
    else
      result = Except.error LoadError.schemaInvalid

/-- Embeds calling the method `filter_commands` on the application object:
the body reads `self.df`, filters a copy of it, and assigns no attribute, so
the returned post-state carries the same `df` as the pre-state. -/
def filter_commands_method (app : GitCommandsApp) (filters : Filters) :
    List CommandEntry × GitCommandsApp :=
  (filter_commands app.df filters.min_importance filters.max_importance
    filters.search_term, app)

/-- Does `term` occur case-insensitively as a substring of `text`?  This
follows the specification's words: an occurrence that ignores letter case,
i.e. the case-folded term occurs in the case-folded text. -/
def ci_substring (term text : String) : Bool :=
  containsStr (pyLower text) (pyLower term)

/-- The filter result as the specification describes it: exactly the entries
whose rank lies in the selected range and for which the search term is empty
or occurs case-insensitively in the name or in the description, kept in input
order. -/
def spec_filter_result (df : List CommandEntry) (min_rank max_rank : Int)
    (search_term : String) : List CommandEntry :=
  df.filter fun e =>
    (decide (min_rank ≤ e.ordem_importancia) &&
     decide (e.ordem_importancia ≤ max_rank)) &&
    (decide (search_term = "") ||
     ci_substring search_term e.comando ||
     ci_substring search_term e.descricao)

/-- Stability of a reordering: for every rank value, the entries carrying
that rank appear in the output in the same relative order (hence as the same
subsequence) as in the input. -/
def stableBy (input output : List CommandEntry) : Prop :=
  ∀ r : Int,
    output.filter (fun e => decide (e.ordem_importancia = r)) =
    input.filter (fun e => decide (e.ordem_importancia = r))

/-- A metacharacter-free pattern deterministically yields the literal
substring matcher. -/
lemma str_contains_rel_literal (pat : String)
    (hmeta : (pat.data.all fun c => !(isRegexMeta c)) = true)
    (outcome : Except Unit (String → Bool))
    (h : str_contains_rel pat outcome) :
    outcome = Except.ok fun hay => isInfixL pat.data hay.data := by
  unfold str_contains_rel at h
  rwa [if_pos hmeta] at h

/-- On empty or metacharacter-free search terms — every term the claims
instantiate — the full relational embedding of the method agrees with the
total function `filter_commands`. -/
lemma filter_commands_rel_ok (df : List CommandEntry)
    (min_importance max_importance : Int) (s : String)
    (hs : s = "" ∨ (s.data.all fun c => !(isRegexMeta c)) = true)
    (result : Except Unit (List CommandEntry))
    (h : filter_commands_rel df min_importance max_importance s result) :
    result = Except.ok (filter_commands df min_importance max_importance s) := by
  unfold filter_commands_rel at h
  unfold filter_commands
  by_cases hse : s = ""
  · rw [if_pos hse] at h
    rw [if_pos hse]
    exact h
  · rcases hs with rfl | hmeta
    · exact absurd rfl hse
    rw [if_neg hse] at h
    rw [if_neg hse]
    obtain ⟨outcome, hrel, hmatch⟩ := h
    rw [str_contains_rel_literal s hmeta outcome hrel] at hmatch
    exact hmatch

/-- Claim C1, as stated, is false on the code: `filter_commands` lowercases
the `comando` and `descrição` columns but not the search term it receives, so
a search term containing an upper-case letter misses entries it matches
case-insensitively.  Concretely, with one entry named `Commit` and search
term `Commit` — a metacharacter-free term, on which `str.contains` is
literal substring search — the code returns the empty frame while the
specification's inclusion rule keeps the entry. -/
theorem filter_commands_case_counterexample :
    filter_commands [⟨"Commit", "", 1, ""⟩] 1 1 "Commit" ≠
      spec_filter_result [⟨"Commit", "", 1, ""⟩] 1 1 "Commit" := by
  decide

/-- The total filter function matches the specification's inclusion rule on
every already-lowercase term.  This is a fact about the literal-domain
function; the claim-level statement over the real method, which also needs
the term to be metacharacter-free, is `filter_commands_matches_spec`. -/
lemma filter_eq_spec_of_lowercase (df : List CommandEntry)
    (min_rank max_rank : Int) (s : String) (h : pyLower s = s) :
    filter_commands df min_rank max_rank s =
      spec_filter_result df min_rank max_rank s := by
  unfold filter_commands spec_filter_result
  by_cases hs : s = ""
  · subst hs
    simp only [if_pos rfl]
    exact List.filter_congr fun a _ => by simp
  · simp only [if_neg hs, List.filter_filter]
    refine List.filter_congr fun a _ => ?_
    simp only [ci_substring, h]
    simp [hs, Bool.and_comm]

/-- Claim C1 (amended): for every entry sequence, bounds and search term that
is already lower-case and free of regex metacharacters — as plain text typed
into the search box and normalised by the sidebar is — the filtering method
succeeds and returns exactly the entries whose rank lies in the range and
for which the term is empty or occurs case-insensitively in the name or the
description, in input order.  A term with upper-case letters can miss
case-insensitive matches (the counterexample), and a term with regex
metacharacters is interpreted as a regular expression, not as a literal
substring. -/
theorem filter_commands_matches_spec (df : List CommandEntry)
    (min_rank max_rank : Int) (s : String)
    (result : Except Unit (List CommandEntry))
    (hlower : pyLower s = s)
    (hmeta : (s.data.all fun c => !(isRegexMeta c)) = true)
    (h : filter_commands_rel df min_rank max_rank s result) :
    result = Except.ok (spec_filter_result df min_rank max_rank s) := by
  rw [filter_commands_rel_ok df min_rank max_rank s (Or.inr hmeta) result h]
  exact congrArg Except.ok (filter_eq_spec_of_lowercase df min_rank max_rank s hlower)

/-- Witness for the amended claim C1 at the concrete lower-case,
metacharacter-free search term used in the spec's own example. -/
theorem filter_commands_matches_spec_witness :
    (Except.ok (filter_commands
        [⟨"git commit", "grava alterações", 2, "git commit -m"⟩] 1 10 "commit") :
      Except Unit (List CommandEntry)) =
      Except.ok (spec_filter_result
        [⟨"git commit", "grava alterações", 2, "git commit -m"⟩] 1 10 "commit") := by
  refine filter_commands_matches_spec _ 1 10 "commit" _ (by decide) (by decide) ?_
  unfold filter_commands_rel
  rw [if_neg (by decide : ¬("commit" = ""))]
  refine ⟨Except.ok fun hay => isInfixL "commit".data hay.data, ?_, ?_⟩
  · unfold str_contains_rel
    rw [if_pos (by decide)]
  · rfl

/-- The total filter's result is always a subsequence of its input. -/
lemma filter_commands_sublist (df : List CommandEntry)
    (min_rank max_rank : Int) (s : String) :
    (filter_commands df min_rank max_rank s).Sublist df := by
  unfold filter_commands
  by_cases hs : s = ""
  · rw [if_pos hs]
    exact List.filter_sublist df
  · simp only [if_neg hs]
    exact (List.filter_sublist _).trans (List.filter_sublist df)

/-- A range excluding every rank empties the total filter's result. -/
lemma filter_commands_empty_range (df : List CommandEntry)
    (min_rank max_rank : Int) (s : String)
    (h : ∀ e ∈ df, ¬(min_rank ≤ e.ordem_importancia ∧
      e.ordem_importancia ≤ max_rank)) :
    filter_commands df min_rank max_rank s = [] := by
  have h0 : (df.filter fun row =>
      decide (min_rank ≤ row.ordem_importancia) &&
      decide (row.ordem_importancia ≤ max_rank)) = [] := by
    refine List.filter_eq_nil_iff.mpr fun a ha => ?_
    simpa using h a ha
  unfold filter_commands
  rw [h0]
  by_cases hs : s = "" <;> simp [hs]

/-- Claim C3, as stated, is false on the code: quantified over every search
term the filter can fail.  The term `(` is an invalid regular expression —
`re.compile` raises `re.error: missing ), unterminated subpattern` — and
`str.contains` is called with its `regex=True` default, so the method raises
instead of returning a sequence. -/
theorem filter_commands_raise_counterexample :
    ¬ (∀ (df : List CommandEntry) (min_rank max_rank : Int) (s : String)
        (result : Except Unit (List CommandEntry)),
        filter_commands_rel df min_rank max_rank s result →
        ∃ out, result = Except.ok out) := by
  intro h
  have hrel : filter_commands_rel
      [⟨"git commit", "grava alterações", 2, "git commit -m"⟩] 1 157 "("
      (Except.error ()) := by
    unfold filter_commands_rel
    rw [if_neg (by decide : ¬("(" = ""))]
    refine ⟨Except.error (), ?_, rfl⟩
    unfold str_contains_rel
    rw [if_neg (by decide), if_pos (by decide)]
  obtain ⟨out, hout⟩ := h _ 1 157 "(" (Except.error ()) hrel
  simp at hout

/-- Claim C3 (amended): for every entry sequence, every choice of bounds and
every search term that is empty or free of regex metacharacters — every
plain-text search — the filtering method never fails: it returns the
sequence computed by the total filter, a subsequence of the input, and a
range excluding every rank yields the empty sequence as a valid, non-error
outcome.  A term that is an invalid regular expression, such as `(`, instead
makes pandas raise `re.error`. -/
theorem filter_commands_never_raises (df : List CommandEntry)
    (min_rank max_rank : Int) (s : String)
    (result : Except Unit (List CommandEntry))
    (hs : s = "" ∨ (s.data.all fun c => !(isRegexMeta c)) = true)
    (h : filter_commands_rel df min_rank max_rank s result) :
    result = Except.ok (filter_commands df min_rank max_rank s) ∧
    (filter_commands df min_rank max_rank s).Sublist df ∧
    ((∀ e ∈ df, ¬(min_rank ≤ e.ordem_importancia ∧
        e.ordem_importancia ≤ max_rank)) →
      result = Except.ok []) := by
  have hok := filter_commands_rel_ok df min_rank max_rank s hs result h
  refine ⟨hok, filter_commands_sublist df min_rank max_rank s, ?_⟩
  intro hrange
  rw [hok, filter_commands_empty_range df min_rank max_rank s hrange]

/-- Witness for the amended claim C3: a metacharacter-free term together
with a range below every rank yields the empty result without an error. -/
theorem filter_commands_never_raises_witness :
    (Except.ok (filter_commands
        [⟨"git push", "envia commits", 12, "git push origin"⟩] 200 300 "push") :
      Except Unit (List CommandEntry)) = Except.ok [] := by
  refine (filter_commands_never_raises
      [⟨"git push", "envia commits", 12, "git push origin"⟩] 200 300 "push"
      _ (Or.inr (by decide)) ?_).2.2 (by decide)
  unfold filter_commands_rel
  rw [if_neg (by decide : ¬("push" = ""))]
  refine ⟨Except.ok fun hay => isInfixL "push".data hay.data, ?_, ?_⟩
  · unfold str_contains_rel
    rw [if_pos (by decide)]
  · rfl

/-- Claim C5: the three importance-tier counts of `render_statistics`,
computed over the full unfiltered frame, always sum to its total row count,
because the predicates rank ≤ 10, 10 < rank ≤ 30 and 30 < rank partition the
integers. -/
theorem statistics_counts_sum (df : List CommandEntry) :
    essential_count df + intermediate_count df + advanced_count df =
      df.length := by
  induction df with
  | nil => rfl
  | cons e rest ih =>
    simp only [essential_count, intermediate_count, advanced_count,
      List.filter_cons] at *
    by_cases h1 : e.ordem_importancia ≤ 10
    · simp [h1, show ¬(10 < e.ordem_importancia) by omega,
        show ¬(30 < e.ordem_importancia) by omega]
      omega
    · by_cases h2 : e.ordem_importancia ≤ 30
      · simp [h1, h2, show 10 < e.ordem_importancia by omega,
          show ¬(30 < e.ordem_importancia) by omega]
        omega
      · simp [h1, h2, show 30 < e.ordem_importancia by omega]
        omega

/-- Claim C6, as stated, is false on the code: the loader never checks that
ranks lie in 1..157, so a loadable dataset holding a rank outside that range
is not returned unchanged by the all-commands filter — the out-of-range row
is dropped. -/
theorem filter_full_range_counterexample :
    filter_commands [⟨"git obscure", "fora da faixa", 200, "x"⟩] 1 157 "" ≠
      [⟨"git obscure", "fora da faixa", 200, "x"⟩] := by
  decide

/-- Claim C6 (amended): for every dataset whose ranks all lie in 1..157 — as
in the shipped 157-command dataset — filtering with min 1, max 157 and an
empty search term is the identity. -/
theorem filter_full_range_identity (df : List CommandEntry)
    (h : ∀ e ∈ df, 1 ≤ e.ordem_importancia ∧ e.ordem_importancia ≤ 157) :
    filter_commands df 1 157 "" = df := by
  unfold filter_commands
  simp only [if_pos rfl]
  refine List.filter_eq_self.mpr fun a ha => ?_
  have := h a ha
  simp only [Bool.and_eq_true, decide_eq_true_eq]
  omega

/-- Witness for the amended claim C6 on a concrete in-range dataset. -/
theorem filter_full_range_identity_witness :
    filter_commands [⟨"git init", "cria repositório", 1, "git init"⟩,
        ⟨"git rebase", "reescreve histórico", 50, "git rebase main"⟩]
      1 157 "" =
      [⟨"git init", "cria repositório", 1, "git init"⟩,
       ⟨"git rebase", "reescreve histórico", 50, "git rebase main"⟩] :=
  filter_full_range_identity _ (by decide)

/-- Claim C7: selecting a valid index from the filtered frame succeeds and
returns exactly the stored row, no field modified. -/
theorem selector_returns_stored_entry (df : List CommandEntry) (i : Nat)
    (h : i < df.length) :
    render_command_selector df i = some (df.get ⟨i, h⟩) := by
  unfold render_command_selector
  have hne : df.isEmpty = false := by
    cases df
    · simp at h
    · simp
  simp [hne, List.getElem?_eq_getElem h]

/-- Witness for claim C7 at index 1 of a two-row filtered frame. -/
theorem selector_returns_stored_entry_witness :
    render_command_selector
      [⟨"git status", "mostra o estado", 3, "git status"⟩,
       ⟨"git diff", "mostra diferenças", 7, "git diff"⟩] 1 =
      some ⟨"git diff", "mostra diferenças", 7, "git diff"⟩ :=
  (selector_returns_stored_entry _ 1 (by decide)).trans (by decide)

/-- Claim C8: calling the `filter_commands` method never mutates the loaded
dataset — the post-state is the pre-state (same entries, same fields, same
order) and the returned frame is the pure filter of the pre-state's rows. -/
theorem filter_commands_preserves_dataset (app : GitCommandsApp)
    (filters : Filters) :
    (filter_commands_method app filters).2 = app ∧
    (filter_commands_method app filters).1 =
      filter_commands app.df filters.min_importance filters.max_importance
        filters.search_term :=
  ⟨rfl, rfl⟩

/-- Auxiliary order for the determinism argument: strictly smaller rank, or
the very same entry.  It is antisymmetric even in the presence of duplicate
ranks. -/
def rankLtOrEq (a b : CommandEntry) : Prop :=
  a.ordem_importancia < b.ordem_importancia ∨ a = b

/-- Claim C2, as stated, is false on the code: `sort_values` with its default
`quicksort` kind guarantees only a sorted permutation, so two rows sharing a
rank may come out in either order.  A two-row frame with equal ranks admits
the swapped output, which is sorted but not order-preserving. -/
theorem sort_stability_counterexample :
    ¬ (∀ input output, sortValuesRel input output → stableBy input output) := by
  intro h
  have h1 := h [⟨"git init", "", 1, ""⟩, ⟨"git clone", "", 1, ""⟩]
      [⟨"git clone", "", 1, ""⟩, ⟨"git init", "", 1, ""⟩]
      ⟨by decide, by decide⟩ 1
  exact absurd h1 (by decide)

/-- Claim C2 (amended): the loader's sort always yields a sequence that is
non-decreasing in `ordem_importância`; and whenever the input's ranks are
pairwise distinct — as in the shipped dataset, whose ranks are unique — the
sorted sequence is moreover uniquely determined, so no tie-order question
arises.  For duplicate ranks the default `quicksort` leaves the relative
order unspecified. -/
theorem sort_values_sorted_and_deterministic :
    ∀ input output, sortValuesRel input output →
      (output.Pairwise fun a b =>
        a.ordem_importancia ≤ b.ordem_importancia) ∧
      ((input.Pairwise fun a b =>
          a.ordem_importancia ≠ b.ordem_importancia) →
        ∀ output₂, sortValuesRel input output₂ → output = output₂) := by
  intro input output hrel
  obtain ⟨hperm, hsort⟩ := hrel
  refine ⟨hsort, ?_⟩
  intro hdist output₂ hrel₂
  obtain ⟨hperm₂, hsort₂⟩ := hrel₂
  have hanti : ∀ a b : CommandEntry, rankLtOrEq a b → rankLtOrEq b a → a = b := by
    intro a b hab hba
    rcases hab with hab | hab
    · rcases hba with hba | hba
      · omega
      · exact hba.symm
    · exact hab
  have hdist1 : output.Pairwise fun a b =>
      a.ordem_importancia ≠ b.ordem_importancia :=
    (hperm.pairwise_iff fun hab => hab.symm).mpr hdist
  have hdist2 : output₂.Pairwise fun a b =>
      a.ordem_importancia ≠ b.ordem_importancia :=
    (hperm₂.pairwise_iff fun hab => hab.symm).mpr hdist
  have hs1 : List.Sorted rankLtOrEq output :=
    (hsort.and hdist1).imp fun hab => Or.inl (lt_of_le_of_ne hab.1 hab.2)
  have hs2 : List.Sorted rankLtOrEq output₂ :=
    (hsort₂.and hdist2).imp fun hab => Or.inl (lt_of_le_of_ne hab.1 hab.2)
  exact @List.eq_of_perm_of_sorted CommandEntry rankLtOrEq ⟨hanti⟩ output output₂
    (hperm.trans hperm₂.symm) hs1 hs2

/-- Witness for the amended claim C2: a concrete unsorted two-row frame with
distinct ranks, its sorted permutation, and the uniqueness of that output. -/
theorem sort_values_sorted_and_deterministic_witness :
    (([⟨"git init", "cria repositório", 1, "git init"⟩,
       ⟨"git commit", "grava alterações", 2, "git commit -m"⟩] :
        List CommandEntry).Pairwise fun a b =>
      a.ordem_importancia ≤ b.ordem_importancia) ∧
    ([⟨"git init", "cria repositório", 1, "git init"⟩,
      ⟨"git commit", "grava alterações", 2, "git commit -m"⟩] :
        List CommandEntry) =
      [⟨"git init", "cria repositório", 1, "git init"⟩,
       ⟨"git commit", "grava alterações", 2, "git commit -m"⟩] := by
  have h := sort_values_sorted_and_deterministic
      [⟨"git commit", "grava alterações", 2, "git commit -m"⟩,
       ⟨"git init", "cria repositório", 1, "git init"⟩]
      [⟨"git init", "cria repositório", 1, "git init"⟩,
       ⟨"git commit", "grava alterações", 2, "git commit -m"⟩]
      ⟨by decide, by decide⟩
  exact ⟨h.1, h.2 (by decide) _ ⟨by decide, by decide⟩⟩

/-- Claim C4: loading fails exactly when the file is missing, the content is
unparseable, or a required column is absent; every failure halts with an
error value carrying no rows, and a successful load hands the later stages a
permutation of the full row set — never a partial dataset. -/
theorem load_failure_halts (file : Option (Except Unit RawCsv))
    (result : Except LoadError (List CommandEntry))
    (h : loadRel file result) :
    ((∃ e, result = Except.error e) ↔
      (file = none ∨ (∃ u, file = some (Except.error u)) ∨
       ∃ raw, file = some (Except.ok raw) ∧ hasRequiredColumns raw = false)) ∧
    (∀ df, result = Except.ok df →
      ∃ raw, file = some (Except.ok raw) ∧ hasRequiredColumns raw = true ∧
        df.Perm raw.rows) := by
  match file with
  | none =>
    simp only [loadRel] at h
    subst h
    refine ⟨⟨fun _ => Or.inl rfl, fun _ => ⟨LoadError.fileNotFound, rfl⟩⟩, ?_⟩
    intro df hdf
    simp at hdf
  | some (Except.error u) =>
    simp only [loadRel] at h
    subst h
    refine ⟨⟨fun _ => Or.inr (Or.inl ⟨u, rfl⟩),
      fun _ => ⟨LoadError.parseError, rfl⟩⟩, ?_⟩
    intro df hdf
    simp at hdf
  | some (Except.ok raw) =>
    simp only [loadRel] at h
    by_cases hc : hasRequiredColumns raw = true
    · rw [if_pos hc] at h
      obtain ⟨out, rfl, hrel⟩ := h
      constructor
      · constructor
        · rintro ⟨e, he⟩
          simp at he
        · rintro (hn | ⟨u, hu⟩ | ⟨raw2, hraw, hcols⟩)
          · simp at hn
          · simp at hu
          · obtain rfl : raw = raw2 := by simpa using hraw
            rw [hc] at hcols
            simp at hcols
      · intro df hdf
        obtain rfl : out = df := by simpa using hdf
        exact ⟨raw, rfl, hc, hrel.1⟩
    · rw [if_neg hc] at h
      subst h
      refine ⟨⟨fun _ => Or.inr (Or.inr ⟨raw, rfl, by simpa using hc⟩),
        fun _ => ⟨LoadError.schemaInvalid, rfl⟩⟩, ?_⟩
      intro df hdf
      simp at hdf

/-- Witness for claim C4: a missing `comandos.csv` yields a halting error. -/
theorem load_failure_halts_witness :
    ∃ e : LoadError,
      (Except.error LoadError.fileNotFound :
        Except LoadError (List CommandEntry)) = Except.error e :=
  ((load_failure_halts none _ rfl).1).mpr (Or.inl rfl)

/-- ASCII case folding sends whitespace characters to themselves, hence
keeps them whitespace. -/
lemma toLower_isWhitespace (c : Char) (h : c.isWhitespace = true) :
    (Char.toLower c).isWhitespace = true := by
  simp [Char.isWhitespace] at h
  rcases h with ((h | h) | h) | h <;> subst h <;> decide

/-- Stripping a string made only of whitespace leaves nothing. -/
lemma stripL_of_all_whitespace (l : List Char)
    (h : ∀ c ∈ l, c.isWhitespace = true) : stripL l = [] := by
  have h1 : l.dropWhile Char.isWhitespace = [] :=
    List.dropWhile_eq_nil_iff.mpr (by simpa using h)
  simp [stripL, h1]

/-- Claim C9: the sidebar normalises the raw search text by lowercasing and
stripping it, so a whitespace-only search collapses to the empty term and the
filter behaves exactly as with no search: every entry of the selected rank
range survives. -/
theorem search_normalisation (sel raw : String) (fs : Filters)
    (h : render_sidebar_filters sel raw = some fs) :
    fs.search_term = pyStrip (pyLower raw) ∧
    ((∀ c ∈ raw.data, c.isWhitespace = true) →
      fs.search_term = "" ∧
      ∀ df, filter_commands df fs.min_importance fs.max_importance
          fs.search_term =
        filter_commands df fs.min_importance fs.max_importance "") := by
  unfold render_sidebar_filters at h
  cases hfind : importance_ranges.find? fun p => p.1 == sel with
  | none =>
    rw [hfind] at h
    simp at h
  | some p =>
    rw [hfind] at h
    injection h with h'
    subst h'
    refine ⟨rfl, ?_⟩
    intro hws
    have hterm : pyStrip (pyLower raw) = "" := by
      have hall : ∀ c ∈ (pyLower raw).data, c.isWhitespace = true := by
        intro c hc
        simp only [pyLower] at hc
        obtain ⟨d, hd, rfl⟩ := List.mem_map.mp hc
        exact toLower_isWhitespace d (hws d hd)
      have hnil : stripL (pyLower raw).data = [] :=
        stripL_of_all_whitespace _ hall
      simp [pyStrip, hnil]
    refine ⟨hterm, ?_⟩
    intro df
    rw [show (Filters.mk p.2.1 p.2.2 (pyStrip (pyLower raw))).search_term =
      pyStrip (pyLower raw) from rfl, hterm]

/-- Witness for claim C9: with the all-commands bucket and a whitespace-only
search box, the normalised term is empty and filtering is unaffected. -/
theorem search_normalisation_witness :
    Filters.search_term ⟨1, 157, ""⟩ = pyStrip (pyLower "   ") ∧
    filter_commands [⟨"git tag", "cria tags", 40, "git tag v1"⟩] 1 157
        (Filters.search_term ⟨1, 157, ""⟩) =
      filter_commands [⟨"git tag", "cria tags", 40, "git tag v1"⟩] 1 157 "" := by
  have h := search_normalisation "📋 Todos os comandos" "   " ⟨1, 157, ""⟩
    (by decide)
  exact ⟨h.1, (h.2 (by decide)).2 [⟨"git tag", "cria tags", 40, "git tag v1"⟩]⟩

/-- A list whose extension by one character is separator-free is itself
separator-free. -/
lemma hasSep_of_cons (c : Char) (l : List Char)
    (h : hasSep (c :: l) = false) : hasSep l = false := by
  cases l with
  | nil => rfl
  | cons d rest =>
    simp [hasSep] at h
    simpa using h.2

/-- Splitting a separator-free list yields that list as the only fragment. -/
lemma splitCommaSpace_of_no_sep :
    ∀ l : List Char, hasSep l = false → splitCommaSpace l = [l] := by
  intro l
  induction l with
  | nil => intro _; rfl
  | cons c rest ih =>
    intro h
    cases rest with
    | nil => rfl
    | cons d rest2 =>
      have hnb : ¬(c = ',' ∧ d = ' ') := by
        rintro ⟨rfl, rfl⟩
        simp [hasSep] at h
      rw [splitCommaSpace, if_neg hnb, ih (hasSep_of_cons c _ h)]

/-- Splitting a separator-free fragment followed by a separator peels off
exactly that fragment. -/
lemma splitCommaSpace_append_sep :
    ∀ f : List Char, hasSep f = false → ∀ t : List Char,
      splitCommaSpace (f ++ ',' :: ' ' :: t) = f :: splitCommaSpace t := by
  intro f
  induction f with
  | nil =>
    intro _ t
    show splitCommaSpace (',' :: ' ' :: t) = [] :: splitCommaSpace t
    rw [splitCommaSpace, if_pos ⟨rfl, rfl⟩]
  | cons c f' ih =>
    intro h t
    have h' : hasSep f' = false := hasSep_of_cons c f' h
    cases f' with
    | nil =>
      have hnb : ¬(c = ',' ∧ (',' : Char) = ' ') := by
        rintro ⟨_, h2⟩
        cases h2
      show splitCommaSpace (c :: ',' :: ' ' :: t) = [c] :: splitCommaSpace t
      rw [splitCommaSpace, if_neg hnb]
      rw [show splitCommaSpace (',' :: ' ' :: t) = [] :: splitCommaSpace t from
        by rw [splitCommaSpace, if_pos ⟨rfl, rfl⟩]]
    | cons d f'' =>
      have hnb : ¬(c = ',' ∧ d = ' ') := by
        rintro ⟨rfl, rfl⟩
        simp [hasSep] at h
      show splitCommaSpace (c :: d :: (f'' ++ ',' :: ' ' :: t)) =
        (c :: d :: f'') :: splitCommaSpace t
      rw [splitCommaSpace, if_neg hnb]
      rw [show (d :: (f'' ++ ',' :: ' ' :: t)) =
        ((d :: f'') ++ ',' :: ' ' :: t) from rfl]
      rw [ih h' t]

/-- Splitting never produces an empty fragment list. -/
lemma splitCommaSpace_ne_nil : ∀ l : List Char, splitCommaSpace l ≠ [] := by
  intro l
  induction l using splitCommaSpace.induct
  case case1 => simp [splitCommaSpace]
  case case2 => simp [splitCommaSpace]
  case case3 c d rest h ih => simp [splitCommaSpace, if_pos h]
  case case4 c d rest h x ih => simp [splitCommaSpace, if_neg h, x]
  case case5 c d rest h frag frags x ih => simp [splitCommaSpace, if_neg h, x]

/-- The first fragment of splitting a non-empty list is either empty (the
list starts with the separator) or starts with the list's first character. -/
lemma splitCommaSpace_head (d : Char) (rest : List Char) :
    (∃ fs, splitCommaSpace (d :: rest) = [] :: fs) ∨
    ∃ f2 fs, splitCommaSpace (d :: rest) = (d :: f2) :: fs := by
  cases rest with
  | nil => exact Or.inr ⟨[], [], rfl⟩
  | cons e rest2 =>
    by_cases hb : d = ',' ∧ e = ' '
    · rw [splitCommaSpace, if_pos hb]
      exact Or.inl ⟨_, rfl⟩
    · rw [splitCommaSpace, if_neg hb]
      cases hsp : splitCommaSpace (e :: rest2) with
      | nil => exact Or.inr ⟨[], [], rfl⟩
      | cons fr frs => exact Or.inr ⟨fr, frs, rfl⟩

/-- Joining the fragments of a split with the separator restores the
original list: the split loses nothing and cuts exactly at separators. -/
lemma joinCommaSpace_splitCommaSpace :
    ∀ l : List Char, joinCommaSpace (splitCommaSpace l) = l := by
  intro l
  induction l using splitCommaSpace.induct
  case case1 => rfl
  case case2 => rfl
  case case3 c d rest h ih =>
    obtain ⟨rfl, rfl⟩ := h
    rw [splitCommaSpace, if_pos ⟨rfl, rfl⟩]
    cases hsp : splitCommaSpace rest with
    | nil => exact absurd hsp (splitCommaSpace_ne_nil rest)
    | cons y ys =>
      rw [hsp] at ih
      rw [joinCommaSpace, List.nil_append, ih]
  case case4 c d rest h x ih =>
    exact absurd x (splitCommaSpace_ne_nil _)
  case case5 c d rest h frag frags x ih =>
    rw [x] at ih
    rw [splitCommaSpace, if_neg h, x]
    cases frags with
    | nil =>
      rw [joinCommaSpace]
      rw [joinCommaSpace] at ih
      rw [ih]
    | cons g gs =>
      rw [joinCommaSpace, List.cons_append]
      rw [joinCommaSpace] at ih
      rw [ih]

/-- Every fragment a split produces is separator-free: the split cuts at
every occurrence of the separator. -/
lemma hasSep_splitCommaSpace :
    ∀ l : List Char, ∀ f ∈ splitCommaSpace l, hasSep f = false := by
  intro l
  induction l using splitCommaSpace.induct
  case case1 =>
    intro f hf
    simp [splitCommaSpace] at hf
    subst hf
    rfl
  case case2 c =>
    intro f hf
    simp [splitCommaSpace] at hf
    subst hf
    rfl
  case case3 c d rest h ih =>
    intro f hf
    rw [splitCommaSpace, if_pos h] at hf
    rcases List.mem_cons.mp hf with rfl | hf2
    · rfl
    · exact ih f hf2
  case case4 c d rest h x ih =>
    exact absurd x (splitCommaSpace_ne_nil _)
  case case5 c d rest h frag frags x ih =>
    intro f hf
    rw [splitCommaSpace, if_neg h, x] at hf
    rcases List.mem_cons.mp hf with rfl | hf2
    · have hfrag : hasSep frag = false := ih frag (by rw [x]; simp)
      cases frag with
      | nil => rfl
      | cons e frag2 =>
        have hed : e = d := by
          rcases splitCommaSpace_head d rest with ⟨fs, heq⟩ | ⟨f2, fs, heq⟩
          · rw [x] at heq
            simp at heq
          · rw [x] at heq
            exact (List.cons_eq_cons.mp (List.cons_eq_cons.mp heq).1).1
        subst hed
        simp [hasSep, hfrag]
        simpa using h
    · exact ih f (by rw [x]; exact List.mem_cons_of_mem _ hf2)

/-- Claim C10: splitting cuts exactly at occurrences of the two-character
separator — the fragments are separator-free and joining them with the
separator restores the stored string — and the rendered usage items are, in
their original order, exactly the fragments that are non-empty after
stripping surrounding whitespace. -/
theorem usage_items_from_fragments :
    (∀ s : String, joinCommaSpace (splitCommaSpace s.data) = s.data ∧
      ∀ f ∈ splitCommaSpace s.data, hasSep f = false) ∧
    ∀ frags : List (List Char), frags ≠ [] →
      (∀ f ∈ frags, hasSep f = false) →
      render_usage_items ⟨joinCommaSpace frags⟩ =
        ((frags.map stripL).filter fun f => !f.isEmpty).map
          fun f => String.mk f := by
  constructor
  · intro s
    exact ⟨joinCommaSpace_splitCommaSpace s.data, hasSep_splitCommaSpace s.data⟩
  · have hsplit : ∀ fs : List (List Char), fs ≠ [] →
        (∀ f ∈ fs, hasSep f = false) →
        splitCommaSpace (joinCommaSpace fs) = fs := by
      intro fs
      induction fs with
      | nil => intro hne; cases hne rfl
      | cons f rest ih =>
        intro _ hall
        cases rest with
        | nil => exact splitCommaSpace_of_no_sep f (hall f (by simp))
        | cons g rest2 =>
          show splitCommaSpace
              (f ++ ',' :: ' ' :: joinCommaSpace (g :: rest2)) =
            f :: g :: rest2
          rw [splitCommaSpace_append_sep f (hall f (by simp))]
          rw [ih (by simp) fun x hx => hall x (by simp [hx])]
    intro frags h1 h2
    unfold render_usage_items
    rw [show (String.mk (joinCommaSpace frags)).data = joinCommaSpace frags
      from rfl]
    rw [hsplit frags h1 h2]

/-- Witness for claim C10: joining three fragments, one of which strips to
nothing, renders the two non-empty ones in order. -/
theorem usage_items_from_fragments_witness :
    render_usage_items
        ⟨joinCommaSpace ["git add .".data, "  ".data, "git add -A".data]⟩ =
      ((["git add .".data, "  ".data, "git add -A".data].map stripL).filter
        fun f => !f.isEmpty).map fun f => String.mk f :=
  usage_items_from_fragments.2 _ (by decide) (by decide)

